import Mathlib

/-!
# Verification of the PMKB normalizer and matcher
  (IR-interpreter-flask: `scripts/pmkb2db.py`, `app/report.py`)

A shallow embedding of the normalization pipeline of `scripts/pmkb2db.py`:
spreadsheet rows (`RawRow`, with pandas `NaN` cells embedded as `none`) are
cleaned (`clean_pmkb_df`), then unpivoted into atomic variant entries
(`make_entries`).  String operations mirror the Python/pandas operations used
by the script, implemented by structural recursion over `List Char` so that
they evaluate by `decide`:

* `pySplitChar` — Python `str.split(sep)` for a one-character separator;
* `stripChars` / `pyStrip` — Python `str.strip()` (ASCII whitespace);
* `joinChars` — Python `sep.join(...)` for a one-character separator;
* `pyToInt` — Python `int(str)` (optional sign and surrounding whitespace,
  `none` when not parseable, mirroring the `ValueError` of `astype(int)`);
* `splitVariantAux` — `re.split(r'\s*,\s*(?=[A-Z])', s)`: a comma splits
  exactly when the first non-whitespace character after it is an uppercase
  ASCII letter, and the separator swallows the whitespace around the comma.

The matcher of the report side (`pmkb.PMKB` / `ir.IRTable`) is not among the
repository sources; `find_interpretations` below is modelled from the spec.
-/

namespace PMKB

/-- Python `str.strip()` on the underlying character list (ASCII whitespace). -/
def stripChars (cs : List Char) : List Char :=
  ((cs.dropWhile Char.isWhitespace).reverse.dropWhile Char.isWhitespace).reverse

/-- Python `str.strip()`. -/
def pyStrip (s : String) : String :=
  ⟨stripChars s.data⟩

/-- Accumulator loop of `pySplitChar`; `acc` holds the current token reversed. -/
def splitCharAux (sep : Char) : List Char → List Char → List String
  | [], acc => [⟨acc.reverse⟩]
  | c :: rest, acc =>
    if c = sep then ⟨acc.reverse⟩ :: splitCharAux sep rest []
    else splitCharAux sep rest (c :: acc)

/-- Python `str.split(sep)` for a single-character separator
(`"".split(",") = [""]`, empty tokens preserved). -/
def pySplitChar (sep : Char) (s : String) : List String :=
  splitCharAux sep s.data []

/-- Python `sep.join(xs)` for a single-character separator, on character
lists. -/
def joinChars (sep : Char) : List (List Char) → List Char
  | [] => []
  | [x] => x
  | x :: xs => x ++ sep :: joinChars sep xs

/-- Digit-string value: `none` as soon as a non-digit appears. -/
def digitsValAux : List Char → Nat → Option Nat
  | [], acc => some acc
  | c :: rest, acc =>
    if c.isDigit then digitsValAux rest (acc * 10 + (c.toNat - '0'.toNat))
    else none

/-- Python `int(s)`: optional surrounding whitespace, optional sign, at least
one digit; `none` models the `ValueError` raised otherwise. -/
def pyToInt (s : String) : Option Int :=
  match stripChars s.data with
  | [] => none
  | '-' :: rest =>
    if rest.isEmpty then none
    else (digitsValAux rest 0).map (fun n => -(n : Int))
  | '+' :: rest =>
    if rest.isEmpty then none
    else (digitsValAux rest 0).map (fun n => (n : Int))
  | cs => (digitsValAux cs 0).map (fun n => (n : Int))

/-- Scan of `re.split(r'\s*,\s*(?=[A-Z])', s)` (pmkb2db.py line 76).  `acc`
holds the current token reversed; `skip` is set right after a separator so
that the whitespace consumed by the separator's trailing `\s*` is skipped
one character at a time (keeping the recursion structural). -/
def splitVariantAux : List Char → List Char → Bool → List String
  | [], acc, _ => [⟨acc.reverse⟩]
  | c :: rest, acc, skip =>
    if skip && c.isWhitespace then
      splitVariantAux rest acc true
    else if c == ',' && ((rest.dropWhile Char.isWhitespace).headD ' ').isUpper then
      ⟨(acc.dropWhile Char.isWhitespace).reverse⟩ :: splitVariantAux rest [] true
    else
      splitVariantAux rest (c :: acc) false

/-- The variant splitter of `make_entries`:
`df['Variant'].str.split(r'\s*,\s*(?=[A-Z])')` — split on a comma exactly
when the comma is followed by optional whitespace and then an uppercase
ASCII letter. -/
def splitVariant (s : String) : List String :=
  splitVariantAux s.data [] false

/-- One spreadsheet row after the column renaming of `clean_pmkb_df`, before
cleaning; a pandas `NaN` cell is `none`.  `citationCells` are the cells of
the columns at or after the `Citation` column (`df.loc[:, 'Citation':]`). -/
structure RawRow where
  tumorType : Option String
  tissueType : Option String
  variant : Option String
  gene : String
  tierCell : Option String
  interpretation : String
  citationCells : List (Option String)
deriving DecidableEq

/-- One row of the cleaned dataframe returned by `clean_pmkb_df`: `source` is
the original row position, `tier` the coerced tier, `citation` the collapsed
citation string. -/
structure CleanRow where
  source : Nat
  gene : String
  tumorType : Option String
  tissueType : Option String
  variant : Option String
  tier : Int
  interpretation : String
  citation : String
deriving DecidableEq

/-- Citation collapsing of `clean_pmkb_df` (line 42):
`df.loc[:, 'Citation':].fillna('').astype(str).apply(lambda x: '\n'.join(x).strip(), axis=1)`
— missing cells become empty strings, all cells are newline-joined
left-to-right, and the joined string is stripped of surrounding whitespace. -/
def collapseCitations (cells : List (Option String)) : String :=
  ⟨stripChars (joinChars '\n' (cells.map (fun c => (Option.getD c "").data)))⟩

/-- Tier coercion of `clean_pmkb_df` (line 50): `df.Tier.fillna(0).astype(int)`
— a missing tier becomes `0`, any other cell goes through `int(...)`, whose
`ValueError` on a non-numeric cell is the `.error` case. -/
def coerceTier (cell : Option String) : Except String Int :=
  match cell with
  | none => .ok 0
  | some s =>
    match pyToInt s with
    | some n => .ok n
    | none => .error ("invalid literal for int: " ++ s)

/-- Row-by-row loop of `clean_pmkb_df`: assigns consecutive row positions as
`Source`, collapses citations, coerces tiers; the first tier that `int(...)`
rejects aborts the whole run. -/
def cleanRows : Nat → List RawRow → Except String (List CleanRow)
  | _, [] => .ok []
  | i, r :: rest =>
    match coerceTier r.tierCell with
    | .error e => .error e
    | .ok t =>
      match cleanRows (i + 1) rest with
      | .error e => .error e
      | .ok cs =>
        .ok ({ source := i, gene := r.gene, tumorType := r.tumorType,
               tissueType := r.tissueType, variant := r.variant, tier := t,
               interpretation := r.interpretation,
               citation := collapseCitations r.citationCells } :: cs)

/-- Embedding of `clean_pmkb_df` (lines 28–51): renaming is reflected in the `RawRow`
field names; `Source` is the zero-based original row position. -/
def clean_pmkb_df (raws : List RawRow) : Except String (List CleanRow) :=
  cleanRows 0 raws

/-- One row of the `entries` table produced by `make_entries`, in the column
order produced by the merges: Source, TumorType, TissueType, Variant, Tier,
Gene. -/
structure Entry where
  source : Nat
  tumorType : String
  tissueType : String
  variant : String
  tier : Int
  gene : String
deriving DecidableEq

/-- Tumor-type tokens of one row:
`df['TumorType'].str.split(',').apply(pd.Series, 1).stack().map(lambda x: x.strip())`
— a `NaN` cell yields no tokens at all (`.stack()` drops `NaN`), a present
cell is comma-split and each token stripped. -/
def tumorTokens (r : CleanRow) : List String :=
  match r.tumorType with
  | none => []
  | some s => (pySplitChar ',' s).map pyStrip

/-- Tissue-type tokens of one row (same pipeline as `tumorTokens`). -/
def tissueTokens (r : CleanRow) : List String :=
  match r.tissueType with
  | none => []
  | some s => (pySplitChar ',' s).map pyStrip

/-- Variant tokens of one row: the regex split of line 76 followed by the
same `.stack().map(strip)` pipeline. -/
def variantTokens (r : CleanRow) : List String :=
  match r.variant with
  | none => []
  | some s => (splitVariant s).map pyStrip

/-- The entries contributed by a single cleaned row: the chain of inner
merges on `Source` (lines 87–92) pairs every tumor token with every tissue
token and every variant token of that row, and copies `Tier` and `Gene`
unchanged. -/
def rowEntries (r : CleanRow) : List Entry :=
  (tumorTokens r).flatMap (fun tu =>
    (tissueTokens r).flatMap (fun ti =>
      (variantTokens r).map (fun v =>
        { source := r.source, tumorType := tu, tissueType := ti,
          variant := v, tier := r.tier, gene := r.gene })))

/-- Embedding of `make_entries` (lines 62–93) over the whole cleaned table. -/
def make_entries (rows : List CleanRow) : List Entry :=
  rows.flatMap rowEntries

end PMKB

namespace PMKB

/-! ## Structure of `make_entries` -/

/-- Membership in the entries derived from one cleaned row: exactly the
cross-product of the three token lists, with `source`, `tier` and `gene`
copied from the row. -/
theorem mem_rowEntries {r : CleanRow} {e : Entry} :
    e ∈ rowEntries r ↔
      (e.source = r.source ∧ e.tumorType ∈ tumorTokens r
        ∧ e.tissueType ∈ tissueTokens r ∧ e.variant ∈ variantTokens r
        ∧ e.tier = r.tier ∧ e.gene = r.gene) := by
  simp only [rowEntries, List.mem_flatMap, List.mem_map]
  constructor
  · rintro ⟨tu, htu, ti, hti, v, hv, rfl⟩
    exact ⟨rfl, htu, hti, hv, rfl, rfl⟩
  · rintro ⟨hsrc, htu, hti, hv, htier, hgene⟩
    refine ⟨e.tumorType, htu, e.tissueType, hti, e.variant, hv, ?_⟩
    cases e
    simp_all

/-- Every entry derived from a row carries that row's `source`. -/
theorem source_of_mem_rowEntries {r : CleanRow} {e : Entry}
    (h : e ∈ rowEntries r) : e.source = r.source :=
  (mem_rowEntries.mp h).1

/-- Length of a `flatMap` whose pieces all have the same length. -/
theorem length_flatMap_const {α β : Type} (l : List α) (f : α → List β)
    (c : Nat) (h : ∀ a ∈ l, (f a).length = c) :
    (l.flatMap f).length = l.length * c := by
  induction l with
  | nil => simp
  | cons a rest ih =>
    simp only [List.flatMap_cons, List.length_append, List.length_cons]
    rw [h a (List.mem_cons_self a rest),
      ih (fun b hb => h b (List.mem_cons_of_mem a hb))]
    ring

/-- The number of entries derived from one row is the product of the three
token-list lengths. -/
theorem length_rowEntries (r : CleanRow) :
    (rowEntries r).length
      = (tumorTokens r).length * (tissueTokens r).length
          * (variantTokens r).length := by
  rw [rowEntries,
    length_flatMap_const _ _ ((tissueTokens r).length * (variantTokens r).length)]
  · ring
  · intro tu _
    rw [length_flatMap_const _ _ (variantTokens r).length]
    intro ti _
    exact List.length_map _ _

/-- When the cleaned table has pairwise distinct `source` values, filtering
`make_entries` by one row's `source` returns exactly that row's entries. -/
theorem filter_make_entries (rows : List CleanRow) (r : CleanRow)
    (hr : r ∈ rows) (hu : (rows.map CleanRow.source).Nodup) :
    (make_entries rows).filter (fun e => e.source == r.source)
      = rowEntries r := by
  induction rows with
  | nil => cases hr
  | cons a rest ih =>
    have hu' : a.source ∉ rest.map CleanRow.source
        ∧ (rest.map CleanRow.source).Nodup := by
      rw [List.map_cons] at hu
      exact List.nodup_cons.mp hu
    rw [make_entries, List.flatMap_cons, List.filter_append]
    rcases List.mem_cons.mp hr with h | h
    · subst h
      have h1 : (rowEntries r).filter (fun e => e.source == r.source)
          = rowEntries r := by
        apply List.filter_eq_self.mpr
        intro e he
        simp [source_of_mem_rowEntries he]
      have h2 : (rest.flatMap rowEntries).filter (fun e => e.source == r.source)
          = [] := by
        apply List.filter_eq_nil_iff.mpr
        intro e he
        obtain ⟨r', hr', he'⟩ := List.mem_flatMap.mp he
        have hne : r'.source ≠ r.source := by
          intro hcontr
          exact hu'.1 (hcontr ▸ List.mem_map_of_mem CleanRow.source hr')
        simp [source_of_mem_rowEntries he', hne]
      rw [h1, h2, List.append_nil]
    · have hne : a.source ≠ r.source := by
        intro hcontr
        exact hu'.1 (hcontr ▸ List.mem_map_of_mem CleanRow.source h)
      have h1 : (rowEntries a).filter (fun e => e.source == r.source) = [] := by
        apply List.filter_eq_nil_iff.mpr
        intro e he
        simp [source_of_mem_rowEntries he, hne]
      rw [h1, List.nil_append]
      exact ih h hu'.2

end PMKB

namespace PMKB

/-! ## C1: cross-expansion law -/

/-- C1: for every cleaned row of a table with distinct `Source` values,
the entries carrying that row's `source_id` number exactly
`|tumor_types| * |tissue_types| * |variants|` after splitting, and they are
exactly the full cross-product of the row's tumor, tissue and variant token
lists, with `tier` and `gene` copied. -/
theorem c1_cross_expansion (rows : List CleanRow) (r : CleanRow)
    (hr : r ∈ rows) (hu : (rows.map CleanRow.source).Nodup) :
    ((make_entries rows).filter (fun e => e.source == r.source)).length
        = (tumorTokens r).length * (tissueTokens r).length
            * (variantTokens r).length
    ∧ ∀ e : Entry,
        e ∈ (make_entries rows).filter (fun e => e.source == r.source) ↔
          (e.source = r.source ∧ e.tumorType ∈ tumorTokens r
            ∧ e.tissueType ∈ tissueTokens r ∧ e.variant ∈ variantTokens r
            ∧ e.tier = r.tier ∧ e.gene = r.gene) := by
  have hfil := filter_make_entries rows r hr hu
  constructor
  · rw [hfil]
    exact length_rowEntries r
  · intro e
    rw [hfil]
    exact mem_rowEntries

/-- Concrete row for the C1 witness: 2 tumor types, 1 tissue type,
2 variants. -/
def exRowC1 : CleanRow :=
  { source := 0, gene := "EGFR", tumorType := some "Lung Cancer, Glioma",
    tissueType := some "Lung", variant := some "L858R, T790M", tier := 1,
    interpretation := "txt", citation := "" }

theorem c1_cross_expansion_witness :
    exRowC1 ∈ [exRowC1] ∧ ([exRowC1].map CleanRow.source).Nodup
    ∧ (((make_entries [exRowC1]).filter
          (fun e => e.source == exRowC1.source)).length
        = (tumorTokens exRowC1).length * (tissueTokens exRowC1).length
            * (variantTokens exRowC1).length
      ∧ ∀ e : Entry,
          e ∈ (make_entries [exRowC1]).filter
              (fun e => e.source == exRowC1.source) ↔
            (e.source = exRowC1.source ∧ e.tumorType ∈ tumorTokens exRowC1
              ∧ e.tissueType ∈ tissueTokens exRowC1
              ∧ e.variant ∈ variantTokens exRowC1
              ∧ e.tier = exRowC1.tier ∧ e.gene = exRowC1.gene)) :=
  ⟨by decide, by decide,
    c1_cross_expansion [exRowC1] exRowC1 (by decide) (by decide)⟩

/-! ## C9: copy invariant -/

/-- C9: in a table with distinct `Source` values, every entry carrying a
row's `source_id` has that row's `gene` and `tier`, unchanged. -/
theorem c9_copy_invariant (rows : List CleanRow) (r : CleanRow) (e : Entry)
    (hr : r ∈ rows) (hu : (rows.map CleanRow.source).Nodup)
    (he : e ∈ make_entries rows) (hs : e.source = r.source) :
    e.gene = r.gene ∧ e.tier = r.tier := by
  obtain ⟨r', hr', he'⟩ := List.mem_flatMap.mp he
  obtain ⟨hsrc, _, _, _, htier, hgene⟩ := mem_rowEntries.mp he'
  have heq : r' = r :=
    List.inj_on_of_nodup_map hu hr' hr (hsrc.symm.trans hs)
  subst heq
  exact ⟨hgene, htier⟩

/-- Concrete row for the C9 witness. -/
def exRowC9 : CleanRow :=
  { source := 3, gene := "BRAF", tumorType := some "Melanoma, Thyroid Cancer",
    tissueType := some "Skin", variant := some "V600E", tier := 2,
    interpretation := "txt", citation := "" }

/-- Concrete entry derived from `exRowC9`. -/
def exEntryC9 : Entry :=
  { source := 3, tumorType := "Melanoma", tissueType := "Skin",
    variant := "V600E", tier := 2, gene := "BRAF" }

theorem c9_copy_invariant_witness :
    exRowC9 ∈ [exRowC9] ∧ ([exRowC9].map CleanRow.source).Nodup
    ∧ exEntryC9 ∈ make_entries [exRowC9]
    ∧ exEntryC9.source = exRowC9.source
    ∧ (exEntryC9.gene = exRowC9.gene ∧ exEntryC9.tier = exRowC9.tier) :=
  ⟨by decide, by decide, by decide, by decide,
    c9_copy_invariant [exRowC9] exRowC9 exEntryC9 (by decide) (by decide)
      (by decide) (by decide)⟩

/-! ## C4: rows with a missing multi-valued cell -/

/-- Concrete row for C4: no tumor type recorded (`NaN` cell). -/
def exRowC4 : CleanRow :=
  { source := 0, gene := "EGFR", tumorType := none,
    tissueType := some "Lung", variant := some "L858R", tier := 1,
    interpretation := "txt", citation := "" }

/-- C4, counterexample: a row whose tumor-type cell is missing yields no
entry at all — contradicting the claim that it still contributes at least
one entry with its `source_id`. -/
theorem c4_counterexample :
    exRowC4.tumorType = none
    ∧ exRowC4.tissueType = some "Lung" ∧ exRowC4.variant = some "L858R"
    ∧ ¬ ∃ e ∈ make_entries [exRowC4], e.source = exRowC4.source := by
  refine ⟨rfl, rfl, rfl, ?_⟩
  decide

/-- C4, amended: a row with a missing (`NaN`) tumor-type, tissue-type or
variant cell contributes no entry whatsoever — `.stack()` drops the missing
value and the inner merges then drop the `source_id` entirely, so the row
silently disappears from the entries output.  Only a present-but-empty cell
is kept as a single empty-string token. -/
theorem c4_amended (rows : List CleanRow) (r : CleanRow)
    (hr : r ∈ rows) (hu : (rows.map CleanRow.source).Nodup)
    (hempty : r.tumorType = none ∨ r.tissueType = none ∨ r.variant = none) :
    (make_entries rows).filter (fun e => e.source == r.source) = []
    ∧ ∀ r' : CleanRow, r'.tumorType = some "" → tumorTokens r' = [""] := by
  constructor
  · rw [filter_make_entries rows r hr hu]
    rcases hempty with h | h | h
    · simp [rowEntries, tumorTokens, h]
    · simp [rowEntries, tissueTokens, h, List.flatMap_eq_nil_iff]
    · simp [rowEntries, variantTokens, h, List.flatMap_eq_nil_iff]
  · intro r' h
    simp only [tumorTokens, h]
    decide

theorem c4_amended_witness :
    exRowC4 ∈ [exRowC4] ∧ ([exRowC4].map CleanRow.source).Nodup
    ∧ (exRowC4.tumorType = none ∨ exRowC4.tissueType = none
        ∨ exRowC4.variant = none)
    ∧ ((make_entries [exRowC4]).filter
          (fun e => e.source == exRowC4.source) = []
      ∧ ∀ r' : CleanRow, r'.tumorType = some "" → tumorTokens r' = [""]) :=
  ⟨by decide, by decide, Or.inl rfl,
    c4_amended [exRowC4] exRowC4 (by decide) (by decide) (Or.inl rfl)⟩

end PMKB

namespace PMKB

/-! ## C2: citation collapsing -/

/-- Splitting a separator-free character list yields one token. -/
theorem splitCharAux_no_sep {sep : Char} :
    ∀ (cs acc : List Char), sep ∉ cs →
      splitCharAux sep cs acc = [⟨acc.reverse ++ cs⟩] := by
  intro cs
  induction cs with
  | nil => intro acc _; simp [splitCharAux]
  | cons c rest ih =>
    intro acc h
    have hc : ¬ c = sep := fun hc => h (hc ▸ List.mem_cons_self c rest)
    rw [splitCharAux, if_neg hc, ih _ (fun hm => h (List.mem_cons_of_mem c hm))]
    simp

/-- Splitting past one separator emits the accumulated token and restarts. -/
theorem splitCharAux_append_sep {sep : Char} :
    ∀ (x rest acc : List Char), sep ∉ x →
      splitCharAux sep (x ++ sep :: rest) acc
        = ⟨acc.reverse ++ x⟩ :: splitCharAux sep rest [] := by
  intro x
  induction x with
  | nil => intro rest acc _; simp [splitCharAux]
  | cons c x' ih =>
    intro rest acc h
    have hc : ¬ c = sep := fun hc => h (hc ▸ List.mem_cons_self c x')
    rw [List.cons_append, splitCharAux, if_neg hc,
      ih _ _ (fun hm => h (List.mem_cons_of_mem c hm))]
    simp

/-- A single-character join followed by a split on the same character
recovers every piece — empty pieces included — provided no piece contains
the separator. -/
theorem splitChar_joinChars {sep : Char} :
    ∀ (l : List (List Char)), l ≠ [] → (∀ cs ∈ l, sep ∉ cs) →
      splitCharAux sep (joinChars sep l) []
        = l.map (fun cs => (⟨cs⟩ : String)) := by
  intro l
  induction l with
  | nil => intro h; cases h rfl
  | cons x rest ih =>
    intro _ hn
    cases rest with
    | nil =>
      rw [joinChars, splitCharAux_no_sep _ _ (hn x (List.mem_cons_self x []))]
      simp
    | cons y rest' =>
      rw [joinChars, splitCharAux_append_sep _ _ _
          (hn x (List.mem_cons_self x (y :: rest'))),
        ih (List.cons_ne_nil y rest')
          (fun cs hcs => hn cs (List.mem_cons_of_mem x hcs))]
      all_goals simp

/-- C2, counterexample: the citation cells `["A", "", "B"]` collapse to
`"A\n\nB"`, not to the `"A\nB"` the claim states — the empty cell is not
dropped before joining, only the ends of the joined string are stripped. -/
theorem c2_counterexample :
    collapseCitations [some "A", some "", some "B"] = "A\n\nB"
    ∧ collapseCitations [some "A", some "", some "B"] ≠ "A\nB" := by
  constructor <;> decide

/-- C2, amended: the cells at or after the first citation column are
filled with the empty string where missing and newline-joined left-to-right
with no cell dropped (splitting the joined text on newlines recovers every
cell, empty ones included); only the surrounding whitespace of the joined
string is stripped, so `["A", "", "B"]` yields `"A\n\nB"`. -/
theorem c2_amended (cells : List (Option String)) (h : cells ≠ [])
    (hnl : ∀ s ∈ cells, '\n' ∉ (Option.getD s "").data) :
    pySplitChar '\n'
        ⟨joinChars '\n' (cells.map (fun c => (Option.getD c "").data))⟩
      = cells.map (fun c => Option.getD c "")
    ∧ collapseCitations [some "A", some "", some "B"] = "A\n\nB" := by
  constructor
  · rw [pySplitChar]
    rw [show (String.mk
        (joinChars '\n' (cells.map (fun c => (Option.getD c "").data)))).data
      = joinChars '\n' (cells.map (fun c => (Option.getD c "").data)) from rfl]
    rw [splitChar_joinChars _ (by simpa using h)
      (by intro cs hcs
          obtain ⟨s, hs, rfl⟩ := List.mem_map.mp hcs
          exact hnl s hs)]
    simp
  · decide

theorem c2_amended_witness :
    ([some "A", some "", some "B"] : List (Option String)) ≠ []
    ∧ (∀ s ∈ ([some "A", some "", some "B"] : List (Option String)),
        '\n' ∉ (Option.getD s "").data)
    ∧ (pySplitChar '\n'
          ⟨joinChars '\n' (([some "A", some "", some "B"] :
              List (Option String)).map (fun c => (Option.getD c "").data))⟩
        = ([some "A", some "", some "B"] :
            List (Option String)).map (fun c => Option.getD c "")
      ∧ collapseCitations [some "A", some "", some "B"] = "A\n\nB") :=
  ⟨by decide, by decide,
    c2_amended [some "A", some "", some "B"] (by decide) (by decide)⟩

/-! ## C3: the variant splitter -/

/-- C3, counterexample: the regex `\s*,\s*(?=[A-Z])` looks ahead for an
uppercase letter; in `"p.Arg100Gln, p.Arg100His"` the comma is followed by
lowercase `p`, so the cell is NOT split — the claim's two-token example is
wrong on the code. -/
theorem c3_counterexample :
    splitVariant "p.Arg100Gln, p.Arg100His" ≠ ["p.Arg100Gln", "p.Arg100His"]
    ∧ splitVariant "p.Arg100Gln, p.Arg100His"
        = ["p.Arg100Gln, p.Arg100His"] := by
  constructor <;> decide

/-- C3, amended: the splitter splits on a comma exactly when the comma is
followed by optional whitespace and then an uppercase letter; consequently
`"p.Arg100Gln, p.Arg100His"` stays a single token (the continuation starts
with lowercase `p`), `"exon 19 deletion, in-frame"` stays a single token,
while `"L858R, T790M"` and `"EGFR amplification,EGFR exon 19 deletion"`
split into two tokens each. -/
theorem c3_amended :
    splitVariant "p.Arg100Gln, p.Arg100His" = ["p.Arg100Gln, p.Arg100His"]
    ∧ splitVariant "exon 19 deletion, in-frame"
        = ["exon 19 deletion, in-frame"]
    ∧ splitVariant "L858R, T790M" = ["L858R", "T790M"]
    ∧ splitVariant "EGFR amplification,EGFR exon 19 deletion"
        = ["EGFR amplification", "EGFR exon 19 deletion"]
    ∧ splitVariant "A,  B" = ["A", "B"] := by
  refine ⟨?_, ?_, ?_, ?_, ?_⟩ <;> decide

end PMKB

namespace PMKB

/-! ## C5: tier coercion -/

/-- What `fillna(0).astype(int)` guarantees for a single row: a missing tier
becomes `0`; a present tier cell parses with `int(...)` and its value is
copied. -/
def tierSpec (raw : RawRow) (row : CleanRow) : Prop :=
  (raw.tierCell = none → row.tier = 0)
  ∧ ∀ s : String, raw.tierCell = some s →
      ∃ n : Int, pyToInt s = some n ∧ row.tier = n

/-- Lemma: `coerceTier` fails exactly on a present, non-numeric cell. -/
theorem coerceTier_error_iff (cell : Option String) :
    (∃ e, coerceTier cell = .error e)
      ↔ ∃ s, cell = some s ∧ pyToInt s = none := by
  cases cell with
  | none => simp [coerceTier]
  | some s =>
    cases hp : pyToInt s <;> simp [coerceTier, hp]

/-- A successful cleaning run coerces every tier as `tierSpec` states. -/
theorem cleanRows_ok_tierSpec :
    ∀ (i : Nat) (raws : List RawRow) (rows : List CleanRow),
      cleanRows i raws = .ok rows → List.Forall₂ tierSpec raws rows := by
  intro i raws
  induction raws generalizing i with
  | nil =>
    intro rows h
    rw [cleanRows] at h
    cases h
    exact List.Forall₂.nil
  | cons r rest ih =>
    intro rows h
    rw [cleanRows] at h
    cases hc : coerceTier r.tierCell with
    | error e => rw [hc] at h; cases h
    | ok t =>
      rw [hc] at h
      cases hrest : cleanRows (i + 1) rest with
      | error e => rw [hrest] at h; cases h
      | ok cs =>
        rw [hrest] at h
        cases h
        refine List.Forall₂.cons ⟨?_, ?_⟩ (ih (i + 1) cs hrest)
        · intro hcell
          rw [hcell, coerceTier] at hc
          cases hc
          rfl
        · intro s hcell
          rw [hcell, coerceTier] at hc
          cases hp : pyToInt s with
          | none => rw [hp] at hc; cases hc
          | some n =>
            rw [hp] at hc
            cases hc
            exact ⟨_, rfl, rfl⟩

/-- A cleaning run fails exactly when some row has a present, non-numeric
tier cell. -/
theorem cleanRows_error_iff :
    ∀ (i : Nat) (raws : List RawRow),
      (∃ e, cleanRows i raws = .error e)
        ↔ ∃ r ∈ raws, ∃ s, r.tierCell = some s ∧ pyToInt s = none := by
  intro i raws
  induction raws generalizing i with
  | nil => simp [cleanRows]
  | cons r rest ih =>
    constructor
    · rintro ⟨e, he⟩
      rw [cleanRows] at he
      cases hc : coerceTier r.tierCell with
      | error e' =>
        obtain ⟨s, hs, hnone⟩ := (coerceTier_error_iff r.tierCell).mp ⟨e', hc⟩
        exact ⟨r, List.mem_cons_self r rest, s, hs, hnone⟩
      | ok t =>
        rw [hc] at he
        cases hrest : cleanRows (i + 1) rest with
        | error e' =>
          obtain ⟨r', hr', hbad⟩ := (ih (i + 1)).mp ⟨e', hrest⟩
          exact ⟨r', List.mem_cons_of_mem r hr', hbad⟩
        | ok cs => rw [hrest] at he; cases he
    · rintro ⟨r', hr', s, hs, hnone⟩
      rw [cleanRows]
      cases hc : coerceTier r.tierCell with
      | error e => exact ⟨e, rfl⟩
      | ok t =>
        rcases List.mem_cons.mp hr' with rfl | hmem
        · rw [hs, coerceTier, hnone] at hc
          cases hc
        · obtain ⟨e, he⟩ := (ih (i + 1)).mpr ⟨r', hmem, s, hs, hnone⟩
          rw [he]
          exact ⟨e, rfl⟩

/-- C5: a missing tier becomes `0` and every present tier cell is
coerced to its integer value in the cleaned output; a present cell that
`int(...)` cannot parse makes the whole `clean_pmkb_df` run fail. -/
theorem c5_tier_coercion (raws : List RawRow) :
    ((∃ e, clean_pmkb_df raws = .error e)
      ↔ ∃ r ∈ raws, ∃ s, r.tierCell = some s ∧ pyToInt s = none)
    ∧ ∀ rows, clean_pmkb_df raws = .ok rows →
        List.Forall₂ tierSpec raws rows :=
  ⟨cleanRows_error_iff 0 raws,
    fun rows h => cleanRows_ok_tierSpec 0 raws rows h⟩

/-- Raw row with no tier recorded. -/
def exRawTierNone : RawRow :=
  { tumorType := some "Lung", tissueType := some "Lung",
    variant := some "L858R", gene := "EGFR", tierCell := none,
    interpretation := "txt", citationCells := [some "c"] }

/-- Raw row with tier `"2"`. -/
def exRawTierTwo : RawRow :=
  { exRawTierNone with tierCell := some "2" }

/-- Raw row with a non-numeric tier. -/
def exRawTierBad : RawRow :=
  { exRawTierNone with tierCell := some "unranked" }

theorem c5_tier_coercion_witness :
    (∃ rows, clean_pmkb_df [exRawTierNone, exRawTierTwo] = .ok rows
      ∧ List.Forall₂ tierSpec [exRawTierNone, exRawTierTwo] rows
      ∧ rows.map CleanRow.tier = [0, 2])
    ∧ ∃ e, clean_pmkb_df [exRawTierNone, exRawTierBad] = .error e := by
  constructor
  · refine ⟨_, rfl, (c5_tier_coercion [exRawTierNone, exRawTierTwo]).2 _ rfl, ?_⟩
    decide
  · exact (c5_tier_coercion [exRawTierNone, exRawTierBad]).1.mpr
      ⟨exRawTierBad, by decide, "unranked", rfl, by decide⟩

end PMKB

namespace PMKB

/-! ## C6: the interpretations artifact -/

/-- The `Source` values of a successful cleaning run are the consecutive row
positions. -/
theorem cleanRows_ok_sources :
    ∀ (i : Nat) (raws : List RawRow) (rows : List CleanRow),
      cleanRows i raws = .ok rows →
        rows.map CleanRow.source = List.range' i raws.length := by
  intro i raws
  induction raws generalizing i with
  | nil =>
    intro rows h
    rw [cleanRows] at h
    cases h
    simp
  | cons r rest ih =>
    intro rows h
    rw [cleanRows] at h
    cases hc : coerceTier r.tierCell with
    | error e => rw [hc] at h; cases h
    | ok t =>
      rw [hc] at h
      cases hrest : cleanRows (i + 1) rest with
      | error e => rw [hrest] at h; cases h
      | ok cs =>
        rw [hrest] at h
        cases h
        rw [List.map_cons, ih (i + 1) cs hrest, List.length_cons,
          List.range'_succ]

/-- A value of one dataframe cell as written to an output artifact. -/
inductive Cell where
  | nat (n : Nat)
  | int (n : Int)
  | str (s : String)
deriving DecidableEq

/-- One cleaned row as written to an output artifact: every column of the
cleaned dataframe, as (column name, value) pairs, in the column order of the
cleaned sheet (`Source` first after `reset_index`, then the renamed input
columns). -/
def cleanRowCells (r : CleanRow) : List (String × Cell) :=
  [("Source", .nat r.source),
   ("TumorType", .str (Option.getD r.tumorType "")),
   ("TissueType", .str (Option.getD r.tissueType "")),
   ("Variant", .str (Option.getD r.variant "")),
   ("Gene", .str r.gene),
   ("Tier", .int r.tier),
   ("Interpretation", .str r.interpretation),
   ("Citation", .str r.citation)]

/-- Embedding of `make_interpretations` (lines 53–59):
`df[['Source', 'Interpretation', 'Citation']]` — defined by the script but
NOT called by `main` (line 150 is commented out). -/
def make_interpretations (rows : List CleanRow) : List (List (String × Cell)) :=
  rows.map (fun r =>
    [("Source", .nat r.source),
     ("Interpretation", .str r.interpretation),
     ("Citation", .str r.citation)])

/-- The rows that `main` actually hands to `save_interpretations`
(line 149: `interpretations = pmkb_df`): the full cleaned dataframe, all
columns included. -/
def interpretationsArtifact (rows : List CleanRow) : List (List (String × Cell)) :=
  rows.map cleanRowCells

/-- Concrete cleaned row for C6. -/
def exRowC6 : CleanRow :=
  { source := 0, gene := "EGFR", tumorType := some "Lung",
    tissueType := some "Lung", variant := some "L858R", tier := 1,
    interpretation := "txt", citation := "c" }

/-- Concrete raw row cleaning to `exRowC6`. -/
def exRawC6 : RawRow :=
  { tumorType := some "Lung", tissueType := some "Lung",
    variant := some "L858R", gene := "EGFR", tierCell := some "1",
    interpretation := "txt", citationCells := [some "c"] }

/-- C6, counterexample: the interpretations artifact written by `main`
does not consist of the three fields `Source`/`Interpretation`/`Citation`
only — `main` writes the full cleaned dataframe (`interpretations =
pmkb_df`; the `make_interpretations` call is commented out), so tumor-type,
tissue-type, variant, gene and tier columns are all present. -/
theorem c6_counterexample :
    ¬ ∀ row ∈ interpretationsArtifact [exRowC6],
        row.map Prod.fst = ["Source", "Interpretation", "Citation"] := by
  decide

/-- C6, amended: the interpretations artifact still has exactly one row
per raw fact, keyed by pairwise-distinct `source_id`s, but each row carries
all eight cleaned columns (`Source`, `TumorType`, `TissueType`, `Variant`,
`Gene`, `Tier`, `Interpretation`, `Citation`), not just the three the claim
lists; the three-column `make_interpretations` helper exists in the script
but is not invoked by `main`. -/
theorem c6_amended (raws : List RawRow) (rows : List CleanRow)
    (h : clean_pmkb_df raws = .ok rows) :
    (interpretationsArtifact rows).length = raws.length
    ∧ (rows.map CleanRow.source).Nodup
    ∧ (∀ row ∈ interpretationsArtifact rows,
        row.map Prod.fst
          = ["Source", "TumorType", "TissueType", "Variant", "Gene", "Tier",
             "Interpretation", "Citation"])
    ∧ ∀ row ∈ make_interpretations rows,
        row.map Prod.fst = ["Source", "Interpretation", "Citation"] := by
  have hsrc := cleanRows_ok_sources 0 raws rows h
  refine ⟨?_, ?_, ?_, ?_⟩
  · rw [interpretationsArtifact, List.length_map]
    have hlen := congrArg List.length hsrc
    simpa using hlen
  · rw [hsrc]
    exact List.nodup_range' 0 raws.length
  · intro row hrow
    obtain ⟨r, _, rfl⟩ := List.mem_map.mp hrow
    rfl
  · intro row hrow
    obtain ⟨r, _, rfl⟩ := List.mem_map.mp hrow
    rfl

theorem c6_amended_witness :
    clean_pmkb_df [exRawC6] = .ok [exRowC6]
    ∧ ((interpretationsArtifact [exRowC6]).length = [exRawC6].length
      ∧ ([exRowC6].map CleanRow.source).Nodup
      ∧ (∀ row ∈ interpretationsArtifact [exRowC6],
          row.map Prod.fst
            = ["Source", "TumorType", "TissueType", "Variant", "Gene",
               "Tier", "Interpretation", "Citation"])
      ∧ ∀ row ∈ make_interpretations [exRowC6],
          row.map Prod.fst = ["Source", "Interpretation", "Citation"]) :=
  ⟨rfl, c6_amended [exRawC6] [exRowC6] rfl⟩

end PMKB

namespace PMKB

/-! ## C7: the flat-text term files -/

/-- First-occurrence deduplication, mirroring pandas `Series.unique()`
(case-sensitive). -/
def uniqueFirstAux (seen : List String) : List String → List String
  | [] => []
  | x :: rest =>
    if x ∈ seen then uniqueFirstAux seen rest
    else x :: uniqueFirstAux (x :: seen) rest

/-- Embedding of `list(series.unique())`: distinct values in first-occurrence order. -/
def uniqueFirst (l : List String) : List String :=
  uniqueFirstAux [] l

/-- Embedding of `save_db_tissues` (lines 118–125): despite its name it runs
`select TumorType from entries` and writes the distinct TUMOR types, one per
line. -/
def save_db_tissues (entries : List Entry) : List String :=
  uniqueFirst (entries.map Entry.tumorType)

/-- Embedding of `save_db_tumor` (lines 127–134): despite its name it runs
`select TissueType from entries` and writes the distinct TISSUE types, one
per line. -/
def save_db_tumor (entries : List Entry) : List String :=
  uniqueFirst (entries.map Entry.tissueType)

/-- The lines `main` writes to the `--tumors` output file
(line 160: `save_db_tumor(db = pmkb_db, output = tumors_file)`). -/
def tumorsFileLines (entries : List Entry) : List String :=
  save_db_tumor entries

/-- The lines `main` writes to the `--tissues` output file
(line 162: `save_db_tissues(db = pmkb_db, output = tissues_file)`). -/
def tissuesFileLines (entries : List Entry) : List String :=
  save_db_tissues entries

/-- Concrete entry for C7: tumor type "Lung Cancer" on tissue "Lung". -/
def exEntryC7 : Entry :=
  { source := 0, tumorType := "Lung Cancer", tissueType := "Lung",
    variant := "L858R", tier := 1, gene := "EGFR" }

/-- C7 (code bug): on an entries table whose only tumor type is
"Lung Cancer" and whose only tissue type is "Lung", the `--tumors` file
receives the distinct TISSUE types and the `--tissues` file the distinct
TUMOR types — the two outputs are swapped relative to the claim and to the
script's own CLI help text ("Output file for tumor type terms"). -/
theorem c7_swapped_outputs :
    tumorsFileLines [exEntryC7] = ["Lung"]
    ∧ tissuesFileLines [exEntryC7] = ["Lung Cancer"]
    ∧ uniqueFirst ([exEntryC7].map Entry.tumorType) = ["Lung Cancer"]
    ∧ uniqueFirst ([exEntryC7].map Entry.tissueType) = ["Lung"]
    ∧ tumorsFileLines [exEntryC7] ≠ uniqueFirst ([exEntryC7].map Entry.tumorType)
    ∧ tissuesFileLines [exEntryC7] ≠ uniqueFirst ([exEntryC7].map Entry.tissueType) := by
  refine ⟨?_, ?_, ?_, ?_, ?_, ?_⟩ <;> decide

/-! ## C8: CLI flag routing in `main` -/

/-- The keyword arguments `main` receives from `parse` (all five output
flags default to `None`). -/
structure MainArgs where
  pmkb_db : Option String
  interpretations_file : Option String
  entries_file : Option String
  tumors_file : Option String
  tissues_file : Option String
deriving DecidableEq

/-- Python truthiness of an optional path argument: `None` and the empty
string are falsy. -/
def truthy (o : Option String) : Bool :=
  match o with
  | none => false
  | some s => !s.isEmpty

/-- The five output artifacts of `pmkb2db.py`. -/
inductive Artifact where
  | db
  | interpretations
  | entries
  | tumors
  | tissues
deriving DecidableEq

/-- The sequence of (artifact, path) writes performed by `main`
(lines 153–162), in program order: interpretations and entries files on
their own flags, the database on `--db`, and the tumor/tissue term files
only when their flag AND `--db` are both given. -/
def mainWrites (a : MainArgs) : List (Artifact × String) :=
  (if truthy a.interpretations_file then
    [(Artifact.interpretations, Option.getD a.interpretations_file "")]
   else [])
  ++ (if truthy a.entries_file then
        [(Artifact.entries, Option.getD a.entries_file "")]
      else [])
  ++ (if truthy a.pmkb_db then [(Artifact.db, Option.getD a.pmkb_db "")]
      else [])
  ++ (if truthy a.tumors_file && truthy a.pmkb_db then
        [(Artifact.tumors, Option.getD a.tumors_file "")]
      else [])
  ++ (if truthy a.tissues_file && truthy a.pmkb_db then
        [(Artifact.tissues, Option.getD a.tissues_file "")]
      else [])

/-- Argument vector supplying only `--tumors`. -/
def exArgsC8 : MainArgs :=
  { pmkb_db := none, interpretations_file := none, entries_file := none,
    tumors_file := some "tumors.txt", tissues_file := none }

/-- C8, counterexample: with `--tumors tumors.txt` supplied and no
`--db`, `main` writes nothing at all — supplying the flag does not produce
the tumor-terms artifact, refuting the claimed flag ↔ artifact
equivalence. -/
theorem c8_counterexample :
    truthy exArgsC8.tumors_file = true ∧ mainWrites exArgsC8 = [] := by
  constructor <;> decide

/-- C8, amended: the database, interpretations and entries artifacts are
each produced exactly when their own flag is supplied (with a non-empty
value), and nothing else is written; but the tumor-terms and tissue-terms
files are produced exactly when their flag AND the `--db` flag are both
supplied. -/
theorem c8_amended (a : MainArgs) :
    ((∃ f, (Artifact.interpretations, f) ∈ mainWrites a)
      ↔ truthy a.interpretations_file = true)
    ∧ ((∃ f, (Artifact.entries, f) ∈ mainWrites a)
      ↔ truthy a.entries_file = true)
    ∧ ((∃ f, (Artifact.db, f) ∈ mainWrites a) ↔ truthy a.pmkb_db = true)
    ∧ ((∃ f, (Artifact.tumors, f) ∈ mainWrites a)
      ↔ (truthy a.tumors_file = true ∧ truthy a.pmkb_db = true))
    ∧ ((∃ f, (Artifact.tissues, f) ∈ mainWrites a)
      ↔ (truthy a.tissues_file = true ∧ truthy a.pmkb_db = true)) := by
  cases h1 : truthy a.interpretations_file <;>
    cases h2 : truthy a.entries_file <;>
    cases h3 : truthy a.pmkb_db <;>
    cases h4 : truthy a.tumors_file <;>
    cases h5 : truthy a.tissues_file <;>
    simp [mainWrites, h1, h2, h3, h4, h5]

end PMKB

namespace PMKB

/-! ## C10: the Matcher -/

/-- Modelled from the spec: one `Interpretation` record of §3 — `source_id`,
free text, newline-joined citations.  The `pmkb` module holding the concrete
class is not among the repository sources. -/
structure InterpRow where
  source : Nat
  text : String
  citations : String
deriving DecidableEq

/-- Modelled from the spec: a sample's reported variant (§3 SampleVariant). -/
structure SampleVariant where
  gene : String
  variant_description : String
  tumor_context : Option String
  tissue_context : Option String
deriving DecidableEq

/-- Modelled from the spec (§4.2): an entry matches a sample variant when
gene and variant are exactly equal (case-sensitive) and any supplied
tumor/tissue context is exactly equal; an omitted context is not
filtered on. -/
def entryMatches (sv : SampleVariant) (e : Entry) : Bool :=
  e.gene == sv.gene && e.variant == sv.variant_description
  && (match sv.tumor_context with
      | none => true
      | some t => e.tumorType == t)
  && (match sv.tissue_context with
      | none => true
      | some t => e.tissueType == t)

/-- First-occurrence deduplication of (source, tier) pairs by source;
`seen` lists the sources already emitted. -/
def dedupKeysAux (seen : List Nat) : List (Nat × Int) → List (Nat × Int)
  | [] => []
  | p :: rest =>
    if p.1 ∈ seen then dedupKeysAux seen rest
    else p :: dedupKeysAux (p.1 :: seen) rest

/-- Modelled from the spec (§4.2): "collect the distinct `source_id`s among
surviving Entries", keeping each source's (first) tier for ordering. -/
def dedupKeys (l : List (Nat × Int)) : List (Nat × Int) :=
  dedupKeysAux [] l

/-- Insert into a tier-ascending list, after existing entries of equal
tier. -/
def insertByTier (p : Nat × Int) : List (Nat × Int) → List (Nat × Int)
  | [] => [p]
  | q :: rest =>
    if p.2 < q.2 then p :: q :: rest
    else q :: insertByTier p rest

/-- Modelled from the spec (§4.2): "output ordering: ascending by `tier`"
(stable insertion sort). -/
def sortByTier : List (Nat × Int) → List (Nat × Int)
  | [] => []
  | p :: rest => insertByTier p (sortByTier rest)

/-- Modelled from the spec: the Matcher contract of §4.2
(`find_interpretations(sample_variant, Entries, Interpretations)`), whose
implementation (the `pmkb` module called through
`IRTable.lookup_all_interpretations` in `app/report.py` lines 38–41) is not
among the repository sources: filter the entries by `entryMatches`, collect
the distinct `source_id`s (with their tiers), order ascending by tier, and
resolve each surviving source to its Interpretation row. -/
def find_interpretations (sv : SampleVariant) (entries : List Entry)
    (interps : List InterpRow) : List InterpRow :=
  (sortByTier (dedupKeys
      ((entries.filter (entryMatches sv)).map (fun e => (e.source, e.tier))))).filterMap
    (fun p => interps.find? (fun ir => ir.source == p.1))

/-- Lemma: `dedupKeysAux` emits pairwise-distinct sources, none of them already
seen. -/
theorem dedupKeysAux_spec :
    ∀ (l : List (Nat × Int)) (seen : List Nat),
      ((dedupKeysAux seen l).map Prod.fst).Nodup
      ∧ ∀ p ∈ dedupKeysAux seen l, p.1 ∉ seen := by
  intro l
  induction l with
  | nil => intro seen; simp [dedupKeysAux]
  | cons p rest ih =>
    intro seen
    rw [dedupKeysAux]
    by_cases h : p.1 ∈ seen
    · rw [if_pos h]
      exact (ih seen)
    · rw [if_neg h]
      refine ⟨?_, ?_⟩
      · rw [List.map_cons, List.nodup_cons]
        refine ⟨?_, (ih (p.1 :: seen)).1⟩
        intro hmem
        obtain ⟨q, hq, hq1⟩ := List.mem_map.mp hmem
        exact (ih (p.1 :: seen)).2 q hq (hq1 ▸ List.mem_cons_self p.1 seen)
      · intro q hq
        rcases List.mem_cons.mp hq with rfl | hq'
        · exact h
        · intro hqseen
          exact (ih (p.1 :: seen)).2 q hq' (List.mem_cons_of_mem p.1 hqseen)

/-- A source not yet seen survives `dedupKeysAux`. -/
theorem mem_fst_dedupKeysAux :
    ∀ (l : List (Nat × Int)) (seen : List Nat) (s : Nat),
      s ∈ l.map Prod.fst → s ∉ seen →
        s ∈ (dedupKeysAux seen l).map Prod.fst := by
  intro l
  induction l with
  | nil => intro seen s h; simp at h
  | cons p rest ih =>
    intro seen s h hns
    rw [dedupKeysAux]
    rw [List.map_cons] at h
    rcases List.mem_cons.mp h with rfl | h'
    · rw [if_neg hns, List.map_cons]
      exact List.mem_cons_self _ _
    · by_cases hp : p.1 ∈ seen
      · rw [if_pos hp]
        exact ih seen s h' hns
      · rw [if_neg hp, List.map_cons]
        by_cases hsp : s = p.1
        · exact hsp ▸ List.mem_cons_self _ _
        · refine List.mem_cons_of_mem _ ?_
          refine ih (p.1 :: seen) s h' ?_
          intro hmem
          rcases List.mem_cons.mp hmem with h1 | h2
          · exact hsp h1
          · exact hns h2
end PMKB

namespace PMKB

/-- Inserting by tier is a permutation of consing. -/
theorem insertByTier_perm (p : Nat × Int) :
    ∀ l : List (Nat × Int), List.Perm (insertByTier p l) (p :: l) := by
  intro l
  induction l with
  | nil => exact List.Perm.refl _
  | cons q rest ih =>
    rw [insertByTier]
    by_cases h : p.2 < q.2
    · rw [if_pos h]
    · rw [if_neg h]
      exact (List.Perm.cons q ih).trans (List.Perm.swap p q rest)

/-- Sorting by tier permutes the list. -/
theorem sortByTier_perm :
    ∀ l : List (Nat × Int), List.Perm (sortByTier l) l := by
  intro l
  induction l with
  | nil => exact List.Perm.refl _
  | cons p rest ih =>
    rw [sortByTier]
    exact (insertByTier_perm p (sortByTier rest)).trans (List.Perm.cons p ih)

/-- Every interpretation emitted by the resolution step has its source among
the keys it was resolved from. -/
theorem source_mem_of_mem_resolve (L : List (Nat × Int))
    (interps : List InterpRow) (ir : InterpRow)
    (h : ir ∈ L.filterMap (fun p => interps.find? (fun x => x.source == p.1))) :
    ir.source ∈ L.map Prod.fst := by
  obtain ⟨p, hp, hfind⟩ := List.mem_filterMap.mp h
  have hs : ir.source = p.1 := by simpa using List.find?_some hfind
  exact hs ▸ List.mem_map_of_mem Prod.fst hp

/-- Resolving pairwise-distinct keys yields interpretations with
pairwise-distinct sources. -/
theorem resolve_nodup (L : List (Nat × Int)) (interps : List InterpRow)
    (h : (L.map Prod.fst).Nodup) :
    ((L.filterMap (fun p => interps.find? (fun x => x.source == p.1))).map
        InterpRow.source).Nodup := by
  induction L with
  | nil => simp
  | cons p rest ih =>
    rw [List.map_cons, List.nodup_cons] at h
    cases hf : interps.find? (fun x => x.source == p.1) with
    | none =>
      simp only [List.filterMap_cons, hf]
      exact ih h.2
    | some ir =>
      simp only [List.filterMap_cons, hf]
      rw [List.map_cons, List.nodup_cons]
      refine ⟨?_, ih h.2⟩
      intro hmem
      obtain ⟨ir', hir', hsrc⟩ := List.mem_map.mp hmem
      have h1 : ir'.source ∈ rest.map Prod.fst :=
        source_mem_of_mem_resolve rest interps ir' hir'
      have h2 : ir.source = p.1 := by simpa using List.find?_some hf
      exact h.1 (by rw [← h2, ← hsrc]; exact h1)

/-- A key whose interpretation exists resolves to an output row with that
source. -/
theorem mem_resolve_of_mem_fst (L : List (Nat × Int))
    (interps : List InterpRow) (s : Nat)
    (hmem : s ∈ L.map Prod.fst) (hin : ∃ ir ∈ interps, ir.source = s) :
    ∃ ir ∈ L.filterMap (fun p => interps.find? (fun x => x.source == p.1)),
      ir.source = s := by
  obtain ⟨p, hp, hps⟩ := List.mem_map.mp hmem
  obtain ⟨ir, hir, hirs⟩ := hin
  have hsome : (interps.find? (fun x => x.source == p.1)).isSome :=
    List.find?_isSome.mpr ⟨ir, hir, by simp [hirs, hps]⟩
  obtain ⟨ir', hir'⟩ := Option.isSome_iff_exists.mp hsome
  refine ⟨ir', List.mem_filterMap.mpr ⟨p, hp, hir'⟩, ?_⟩
  have h := List.find?_some hir'
  simp only [beq_iff_eq] at h
  rw [h, hps]

/-- In a list of interpretations with pairwise-distinct sources, filtering
by a source that occurs keeps exactly one row. -/
theorem length_filter_source_eq_one (l : List InterpRow) (s : Nat)
    (hn : (l.map InterpRow.source).Nodup) (hmem : ∃ ir ∈ l, ir.source = s) :
    (l.filter (fun ir => ir.source == s)).length = 1 := by
  induction l with
  | nil => simp at hmem
  | cons ir rest ih =>
    rw [List.map_cons, List.nodup_cons] at hn
    by_cases h : ir.source = s
    · rw [List.filter_cons_of_pos (by simp [h])]
      have hnil : rest.filter (fun x => x.source == s) = [] := by
        apply List.filter_eq_nil_iff.mpr
        intro x hx
        simp only [beq_iff_eq]
        intro hxs
        have hxi : x.source = ir.source := by rw [hxs, h]
        exact hn.1 (hxi ▸ List.mem_map_of_mem InterpRow.source hx)
      rw [hnil]
      rfl
    · rw [List.filter_cons_of_neg (by simp [h])]
      apply ih hn.2
      obtain ⟨ir', hir', hs'⟩ := hmem
      rcases List.mem_cons.mp hir' with rfl | hmem'
      · exact absurd hs' h
      · exact ⟨ir', hmem', hs'⟩

/-- C10: when some entry matching the sample variant carries source `s`
and `s` has an interpretation row, `find_interpretations` emits
pairwise-distinct sources and contains exactly one row with source `s` —
one RawFact matched through several tumor/tissue expansions is emitted
once. -/
theorem c10_dedup (sv : SampleVariant) (entries : List Entry)
    (interps : List InterpRow) (s : Nat)
    (hmatch : ∃ e ∈ entries, entryMatches sv e = true ∧ e.source = s)
    (hin : ∃ ir ∈ interps, ir.source = s) :
    ((find_interpretations sv entries interps).map InterpRow.source).Nodup
    ∧ ((find_interpretations sv entries interps).filter
        (fun ir => ir.source == s)).length = 1 := by
  obtain ⟨e, he, hm, hes⟩ := hmatch
  simp only [find_interpretations, dedupKeys]
  set pairs := (entries.filter (entryMatches sv)).map
    (fun e => (e.source, e.tier)) with hpairs
  have hdk := dedupKeysAux_spec pairs []
  have hperm : List.Perm ((sortByTier (dedupKeysAux [] pairs)).map Prod.fst)
      ((dedupKeysAux [] pairs).map Prod.fst) :=
    (sortByTier_perm (dedupKeysAux [] pairs)).map Prod.fst
  have hnodup_sorted : ((sortByTier (dedupKeysAux [] pairs)).map
      Prod.fst).Nodup := hperm.symm.nodup hdk.1
  have hs_pairs : s ∈ pairs.map Prod.fst := by
    rw [hpairs]
    exact List.mem_map.mpr ⟨(e.source, e.tier),
      List.mem_map_of_mem _ (List.mem_filter.mpr ⟨he, hm⟩), hes⟩
  have hs_dk : s ∈ (dedupKeysAux [] pairs).map Prod.fst :=
    mem_fst_dedupKeysAux pairs [] s hs_pairs (by simp)
  have hs_sorted : s ∈ (sortByTier (dedupKeysAux [] pairs)).map Prod.fst :=
    hperm.mem_iff.mpr hs_dk
  constructor
  · exact resolve_nodup _ interps hnodup_sorted
  · exact length_filter_source_eq_one _ s
      (resolve_nodup _ interps hnodup_sorted)
      (mem_resolve_of_mem_fst _ interps s hs_sorted hin)

/-- Sample variant of the spec's EGFR example scenario. -/
def exSvC10 : SampleVariant :=
  { gene := "EGFR", variant_description := "L858R",
    tumor_context := none, tissue_context := none }

/-- First expanded entry of the EGFR example (tumor "Lung Cancer"). -/
def exEntC10a : Entry :=
  { source := 0, tumorType := "Lung Cancer", tissueType := "Lung",
    variant := "L858R", tier := 1, gene := "EGFR" }

/-- Second expanded entry of the EGFR example (tumor "Glioma"), same
source. -/
def exEntC10b : Entry :=
  { source := 0, tumorType := "Glioma", tissueType := "Lung",
    variant := "L858R", tier := 1, gene := "EGFR" }

/-- The single interpretation row behind both entries. -/
def exInterpC10 : InterpRow :=
  { source := 0, text := "EGFR L858R predicts response.", citations := "c" }

theorem c10_dedup_witness :
    (∃ e ∈ [exEntC10a, exEntC10b],
      entryMatches exSvC10 e = true ∧ e.source = 0)
    ∧ (∃ ir ∈ [exInterpC10], ir.source = 0)
    ∧ (((find_interpretations exSvC10 [exEntC10a, exEntC10b]
          [exInterpC10]).map InterpRow.source).Nodup
      ∧ ((find_interpretations exSvC10 [exEntC10a, exEntC10b]
            [exInterpC10]).filter (fun ir => ir.source == 0)).length = 1)
    ∧ find_interpretations exSvC10 [exEntC10a, exEntC10b] [exInterpC10]
        = [exInterpC10] :=
  ⟨⟨exEntC10a, by decide, by decide, rfl⟩, ⟨exInterpC10, by decide, rfl⟩,
    c10_dedup exSvC10 [exEntC10a, exEntC10b] [exInterpC10] 0
      ⟨exEntC10a, by decide, by decide, rfl⟩ ⟨exInterpC10, by decide, rfl⟩,
    by decide⟩

end PMKB

namespace PMKB

/-- Argument vector supplying `--db`, `--interpretations` and `--tumors`. -/
def exArgsC8W : MainArgs :=
  { pmkb_db := some "pmkb.db", interpretations_file := some "i.tsv",
    entries_file := none, tumors_file := some "t.txt",
    tissues_file := none }

theorem c8_amended_witness :
    (∃ f, (Artifact.tumors, f) ∈ mainWrites exArgsC8W) ↔
      (truthy exArgsC8W.tumors_file = true
        ∧ truthy exArgsC8W.pmkb_db = true) :=
  (c8_amended exArgsC8W).2.2.2.1

end PMKB
